import Mathlib

/-!
Verification development for the streaming zonal-statistics pipeline in
`src/eedl/zonal.py`.  The Python module is shallowly embedded below:

* `Value` models the dynamically typed values held in feature property
  mappings (Python `float` is modelled as an exact rational, `int`, `str`,
  `None`).
* `splitPath` embeds `os.path.split` (posix behaviour) and
  `get_fiona_args` embeds `_get_fiona_args`.
* `projectRecord` embeds the dictionary comprehension plus the
  float-truncation loop of `zonal_stats` (lines 110-114).
* `stepState` / `runLoop` / `finishState` / `processRecords` embed the
  batched write loop of `zonal_stats` (lines 103-127); the lazy sequence
  produced by the external `rasterstats` generators is modelled as an input
  list `engine_records` holding, per the collaborator contract, one
  property mapping per input feature in native feature order.
* `zonal_stats` embeds the whole entry point; its observable behaviour is
  collected in a `RunOutput` record (written flushes, progress prints,
  the csv header, the arguments forwarded to `fiona.open` and to the
  statistics engine, the returned path, and the propagated error if a
  configured field is missing).
-/

namespace Eedl

/-- Dynamically typed property values: Python float (exact rational model),
int, str, and None. -/
inductive Value where
  | vFloat (q : ℚ)
  | vInt (n : ℤ)
  | vStr (s : String)
  | vNull
  deriving DecidableEq

/-- A feature property mapping as yielded by the statistics engine
(`poly['properties']`), modelled as an association list with unique keys. -/
abbrev RawRecord := List (String × Value)

/-- A projected output record, in fieldname order. -/
abbrev ProjRecord := List (String × Value)

/-- Decidable equality of fallible results, used to evaluate concrete
projections. -/
instance exceptDecEq {ε α : Type} [DecidableEq ε] [DecidableEq α] :
    DecidableEq (Except ε α)
  | Except.ok a, Except.ok b =>
      if h : a = b then isTrue (by rw [h])
      else isFalse (by intro hc; cases hc; exact h rfl)
  | Except.ok _, Except.error _ => isFalse (by intro hc; cases hc)
  | Except.error _, Except.ok _ => isFalse (by intro hc; cases hc)
  | Except.error e, Except.error f =>
      if h : e = f then isTrue (by rw [h])
      else isFalse (by intro hc; cases hc; exact h rfl)

/-- Python dictionary lookup `props[key]` as an option (first matching key). -/
def lookupKey (props : List (String × Value)) (k : String) : Option Value :=
  match props with
  | [] => none
  | (k2, v) :: rest => if k2 = k then some v else lookupKey rest k

/-- Python `s.endswith(t)`. -/
def strEndsWith (s t : String) : Bool :=
  t.data.isSuffixOf s.data

/-- Helper for `splitPath`: position just after the last slash
(0 when there is none), like `p.rfind(sep) + 1` in posixpath. -/
def lastSlashAux : List Char → Nat → Nat → Nat
  | [], _, best => best
  | c :: rest, pos, best =>
      lastSlashAux rest (pos + 1) (if c = '/' then pos + 1 else best)

/-- `os.path.split` (posix behaviour): split at the final slash, then strip
trailing slashes from the head unless the head is empty or all slashes. -/
def splitPath (p : String) : String × String :=
  let cs := p.data
  let i := lastSlashAux cs 0 0
  let head := cs.take i
  let tail := cs.drop i
  let head2 :=
    if head.isEmpty || head.all (fun c => c = '/') then head
    else (head.reverse.dropWhile (fun c => c = '/')).reverse
  (String.mk head2, String.mk tail)

/-- The opening specification produced by `_get_fiona_args`: after
`main_file_path = kwargs['fp']; del kwargs['fp']` the dictionary holds at
most a `layer` entry, so it is modelled as a path plus an optional layer. -/
structure OpenSpec where
  fp : String
  layer : Option String
  deriving DecidableEq

/-- Embedding of `_get_fiona_args` (zonal.py lines 10-27): if the folder
name ends with `.gdb` or `.gpkg` and the leaf has no dot, treat the leaf as
a layer inside the folder container; otherwise the whole path is the file. -/
def get_fiona_args (polygon_path : String) : OpenSpec :=
  let parts := splitPath polygon_path
  if (strEndsWith parts.1 ".gdb" || strEndsWith parts.1 ".gpkg")
      && !(parts.2.data.contains '.') then
    { fp := parts.1, layer := some parts.2 }
  else
    { fp := polygon_path, layer := none }

/-- `os.path.join` (posix behaviour) for the two-argument use in the
source. -/
def path_join (a b : String) : String :=
  if b.data.take 1 = ['/'] then b
  else if a = "" ∨ strEndsWith a "/" then a ++ b
  else a ++ "/" ++ b

/-- Round-half-even of `q * 100000` to an integer, the rounding performed
by Python fixed-point formatting at 5 decimal places, computed exactly on
the numerator and denominator: `f` is the floor of the scaled value and
`rem / den` its fractional part, compared against one half. -/
def roundHalfEven5 (q : ℚ) : ℤ :=
  let num := q.num * 100000
  let den : ℤ := (q.den : ℤ)
  let f := num.fdiv den
  let rem := num - f * den
  if 2 * rem < den then f
  else if den < 2 * rem then f + 1
  else if f % 2 = 0 then f else f + 1

/-- A decimal digit character. -/
def digitChar (n : Nat) : Char :=
  Char.ofNat (48 + n)

/-- The five zero-padded decimal digits of a natural number below 100000
(the fractional part printed by a `.5f` format). -/
def frac5 (m : Nat) : String :=
  String.mk [digitChar (m / 10000 % 10), digitChar (m / 1000 % 10),
    digitChar (m / 100 % 10), digitChar (m / 10 % 10), digitChar (m % 10)]

/-- Embedding of the Python format `f"{x:.5f}"` on the exact rational model
of a float: round half-even at 5 decimal places and print with exactly 5
fractional digits. -/
def formatFloat5 (q : ℚ) : String :=
  let n := roundHalfEven5 q
  let sign := if n < 0 then "-" else ""
  let a := n.natAbs
  sign ++ toString (a / 100000) ++ "." ++ frac5 (a % 100000)

/-- The float-truncation step of zonal.py lines 112-114: values whose
runtime type is float are replaced by their 5-decimal text rendering, every
other value passes through unchanged. -/
def formatValue : Value → Value
  | Value.vFloat q => Value.vStr (formatFloat5 q)
  | v => v

/-- The dictionary comprehension of zonal.py line 110:
`result = {key: poly['properties'][key] for key in fieldnames}`.
Evaluates left to right and fails with the first missing key (KeyError). -/
def selectFields (fieldnames : List String) (props : RawRecord) :
    Except String (List (String × Value)) :=
  match fieldnames with
  | [] => Except.ok []
  | k :: ks =>
      match lookupKey props k with
      | none => Except.error k
      | some v =>
          match selectFields ks props with
          | Except.ok rest => Except.ok ((k, v) :: rest)
          | Except.error e => Except.error e

/-- One full record projection: field selection (line 110) followed by the
float-truncation loop (lines 112-114). -/
def projectRecord (fieldnames : List String) (props : RawRecord) :
    Except String ProjRecord :=
  match selectFields fieldnames props with
  | Except.ok sel => Except.ok (sel.map (fun kv => (kv.1, formatValue kv.2)))
  | Except.error e => Except.error e

/-- Projection of a whole record sequence, stopping at the first failure
(the behaviour of the loop when a KeyError propagates). -/
def projectAll (fieldnames : List String) : List RawRecord →
    Except String (List ProjRecord)
  | [] => Except.ok []
  | r :: rest =>
      match projectRecord fieldnames r, projectAll fieldnames rest with
      | Except.ok v, Except.ok vs => Except.ok (v :: vs)
      | Except.error e, _ => Except.error e
      | Except.ok _, Except.error e => Except.error e

/-- The mutable state of the write loop of zonal.py lines 103-123:
the running count `i`, the pending buffer `results`, the list of
`writer.writerows` calls made so far (`flushes`), and the progress counts
printed so far (`prints`). -/
structure LoopState where
  i : Nat
  results : List ProjRecord
  flushes : List (List ProjRecord)
  prints : List Nat
  deriving DecidableEq

/-- One iteration of the loop body after a successful projection
(zonal.py lines 116-123): increment `i`, append the record, flush the
buffer when `i` is a multiple of the batch size, and print `i` when
reporting is enabled and `i` is a multiple of the threshold.  A disabled
`report_threshold` (Python `None` or `0`, both falsy) is modelled as 0. -/
def stepState (B T : Nat) (st : LoopState) (r : ProjRecord) : LoopState :=
  let i := st.i + 1
  let results := st.results ++ [r]
  { i := i
    results := if i % B = 0 then [] else results
    flushes := if i % B = 0 then st.flushes ++ [results] else st.flushes
    prints := if T ≠ 0 ∧ i % T = 0 then st.prints ++ [i] else st.prints }

/-- Folding the loop body over a list of already-projected records. -/
def applyAll (B T : Nat) (rows : List ProjRecord) (st : LoopState) : LoopState :=
  rows.foldl (stepState B T) st

/-- The `for poly in zstats_results_geo` loop (zonal.py lines 109-123):
project each record and run the loop body, stopping with the KeyError field
name when a projection fails. -/
def runLoop (fieldnames : List String) (B T : Nat) :
    List RawRecord → LoopState → LoopState × Option String
  | [], st => (st, none)
  | r :: rest, st =>
      match projectRecord fieldnames r with
      | Except.error k => (st, some k)
      | Except.ok v => runLoop fieldnames B T rest (stepState B T st v)

/-- The epilogue of zonal.py lines 125-127: if the buffer is nonempty,
flush it and print the final count. -/
def finishState (st : LoopState) : LoopState :=
  if st.results.isEmpty then st
  else { st with results := []
                 flushes := st.flushes ++ [st.results]
                 prints := st.prints ++ [st.i] }

/-- The whole write loop: on success the epilogue runs, on a propagated
KeyError it does not (the exception escapes the `with` blocks). -/
def processRecords (fieldnames : List String) (B T : Nat)
    (records : List RawRecord) (st : LoopState) : LoopState × Option String :=
  match runLoop fieldnames B T records st with
  | (st2, none) => (finishState st2, none)
  | (st2, some k) => (st2, some k)

/-- The initial loop state of zonal.py line 103-108: `i = 0`, empty buffer,
no flush yet, no print yet. -/
def initState : LoopState :=
  ⟨0, [], [], []⟩

/-- The call made to the external `rasterstats` engine, recording every
argument the source passes (zonal.py lines 80 and 85-90).  The keyword
dictionary forwarded via `**kwargs` is, after the deletion of `fp`, exactly
the optional `layer` entry of the container resolution. -/
inductive EngineCall where
  | genZonalStats (raster : String) (stats : List String)
      (geojson_out : Bool) (nodata : ℤ) (layerKw : Option String)
  | genPointQuery (raster : String) (geojson_out : Bool) (nodata : ℤ)
      (interpolate : String) (layerKw : Option String)
  deriving DecidableEq

/-- The keyword mapping forwarded to the engine call. -/
def EngineCall.layerKwargs : EngineCall → Option String
  | EngineCall.genZonalStats _ _ _ _ l => l
  | EngineCall.genPointQuery _ _ _ _ l => l

/-- The observable behaviour of one `zonal_stats` run. -/
structure RunOutput where
  output_filepath : String
  header : List String
  flushes : List (List ProjRecord)
  prints : List Nat
  err : Option String
  retval : Option String
  fiona_open_path : String
  fiona_open_kwargs : Option String
  engine_call : EngineCall
  deriving DecidableEq

/-- The csv file content as rows of values: the header row (written once by
`writer.writeheader()` before the loop) followed by the data rows of every
`writer.writerows` call in order. -/
def RunOutput.csvRows (out : RunOutput) : List (List Value) :=
  (out.header.map Value.vStr) :: (out.flushes.flatten.map (fun row => row.map Prod.snd))

/-- Embedding of `zonal_stats` (zonal.py lines 30-129).  The caller-supplied
extra keyword arguments are a parameter that the body never reads: line 73
rebinds `kwargs` to the container-resolution result before any use.
`engine_records` is the sequence the `rasterstats` generator yields, one
property mapping per input feature in native feature order. -/
def zonal_stats (features raster output_folder filename : String)
    (keep_fields stats : List String)
    (report_threshold write_batch_size : Nat) (use_points : Bool)
    (_caller_kwargs : List (String × Value))
    (engine_records : List RawRecord) : RunOutput :=
  let kwargs := get_fiona_args features
  let main_file_path := kwargs.fp
  let layer_kw := kwargs.layer
  let fieldnames :=
    if !use_points then stats ++ keep_fields else "value" :: keep_fields
  let engine_call :=
    if !use_points then
      EngineCall.genZonalStats raster stats true (-9999) layer_kw
    else
      EngineCall.genPointQuery raster true (-9999) "nearest" layer_kw
  let file_suffix := if !use_points then "zonal_stats" else "point_query"
  let output_filepath :=
    path_join output_folder (filename ++ "_" ++ file_suffix ++ ".csv")
  let res := processRecords fieldnames write_batch_size report_threshold
    engine_records initState
  { output_filepath := output_filepath
    header := fieldnames
    flushes := res.1.flushes
    prints := res.1.prints
    err := res.2
    retval := if res.2 = none then some output_filepath else none
    fiona_open_path := main_file_path
    fiona_open_kwargs := layer_kw
    engine_call := engine_call }

/-! ### Arithmetic helpers about batch boundaries -/

lemma succ_mod_of_ne {B i : ℕ} (hB : 0 < B) (h : (i + 1) % B ≠ 0) :
    (i + 1) % B = i % B + 1 := by
  have hB1 : 1 < B := by
    rcases Nat.lt_or_ge 1 B with h1 | h1
    · exact h1
    · exfalso
      apply h
      have hB' : B = 1 := Nat.le_antisymm h1 hB
      simp [hB', Nat.mod_one]
  have hmod : (i + 1) % B = (i % B + 1) % B := by
    conv_lhs => rw [Nat.add_mod]
    rw [Nat.mod_eq_of_lt hB1]
  have hlt : i % B < B := Nat.mod_lt _ hB
  rcases Nat.lt_or_ge (i % B + 1) B with hlt2 | hge
  · rw [hmod, Nat.mod_eq_of_lt hlt2]
  · exfalso
    apply h
    have hEq : i % B + 1 = B := Nat.le_antisymm hlt hge
    rw [hmod, hEq, Nat.mod_self]

lemma succ_mod_eq_zero {B i : ℕ} (hB : 0 < B) (h : (i + 1) % B = 0) :
    i % B + 1 = B := by
  have hB1 : 1 < B ∨ B = 1 := by
    rcases Nat.lt_or_ge 1 B with h1 | h1
    · exact Or.inl h1
    · exact Or.inr (Nat.le_antisymm h1 hB)
  rcases hB1 with hB1 | hB1
  · have hmod : (i + 1) % B = (i % B + 1) % B := by
      conv_lhs => rw [Nat.add_mod]
      rw [Nat.mod_eq_of_lt hB1]
    have hlt : i % B < B := Nat.mod_lt _ hB
    rcases Nat.lt_or_ge (i % B + 1) B with hlt2 | hge
    · exfalso
      rw [hmod, Nat.mod_eq_of_lt hlt2] at h
      exact Nat.succ_ne_zero _ h
    · exact Nat.le_antisymm hlt hge
  · simp [hB1, Nat.mod_one]

lemma succ_div_eq {B i : ℕ} :
    (i + 1) / B = i / B + (if (i + 1) % B = 0 then 1 else 0) := by
  rw [Nat.succ_div]
  congr 1
  simp [Nat.dvd_iff_mod_eq_zero]

lemma ceil_div_of_mod_eq_zero {B n : ℕ} (hB : 0 < B) (h : n % B = 0) :
    (n + B - 1) / B = n / B := by
  obtain ⟨q, hq⟩ := Nat.dvd_iff_mod_eq_zero.mpr h
  subst hq
  rw [Nat.mul_div_cancel_left _ hB]
  have h1 : B * q + B - 1 = (B - 1) + B * q := by omega
  rw [h1, Nat.add_mul_div_left _ _ hB, Nat.div_eq_of_lt (by omega)]
  omega

lemma ceil_div_of_mod_ne_zero {B n : ℕ} (hB : 0 < B) (h : n % B ≠ 0) :
    (n + B - 1) / B = n / B + 1 := by
  have hmod := Nat.div_add_mod n B
  have hrB : n % B < B := Nat.mod_lt _ hB
  have hr1 : 1 ≤ n % B := Nat.one_le_iff_ne_zero.mpr h
  have hexp : B * (n / B + 1) = B * (n / B) + B := by ring
  have h1 : n + B - 1 = (n % B - 1) + B * (n / B + 1) := by
    rw [hexp]
    omega
  rw [h1, Nat.add_mul_div_left _ _ hB, Nat.div_eq_of_lt (by omega)]
  omega

/-! ### Single-step lemmas for the loop body -/

lemma stepState_i (B T : ℕ) (st : LoopState) (r : ProjRecord) :
    (stepState B T st r).i = st.i + 1 := rfl

lemma stepState_results_of_eq {B : ℕ} (T : ℕ) {st : LoopState} (r : ProjRecord)
    (h : (st.i + 1) % B = 0) : (stepState B T st r).results = [] := by
  simp [stepState, h]

lemma stepState_results_of_ne {B : ℕ} (T : ℕ) {st : LoopState} (r : ProjRecord)
    (h : (st.i + 1) % B ≠ 0) :
    (stepState B T st r).results = st.results ++ [r] := by
  simp [stepState, h]

lemma stepState_flushes_of_eq {B : ℕ} (T : ℕ) {st : LoopState} (r : ProjRecord)
    (h : (st.i + 1) % B = 0) :
    (stepState B T st r).flushes = st.flushes ++ [st.results ++ [r]] := by
  simp [stepState, h]

lemma stepState_flushes_of_ne {B : ℕ} (T : ℕ) {st : LoopState} (r : ProjRecord)
    (h : (st.i + 1) % B ≠ 0) :
    (stepState B T st r).flushes = st.flushes := by
  simp [stepState, h]

lemma stepState_prints (B T : ℕ) (st : LoopState) (r : ProjRecord) :
    (stepState B T st r).prints
      = st.prints ++ (if T ≠ 0 ∧ (st.i + 1) % T = 0 then [st.i + 1] else []) := by
  by_cases h : T ≠ 0 ∧ (st.i + 1) % T = 0 <;> simp [stepState, h]

lemma stepState_inv {B : ℕ} (T : ℕ) (hB : 0 < B) {st : LoopState}
    (r : ProjRecord) (h : st.results.length = st.i % B) :
    (stepState B T st r).results.length = (stepState B T st r).i % B := by
  rw [stepState_i]
  by_cases hc : (st.i + 1) % B = 0
  · rw [stepState_results_of_eq T r hc, hc]
    rfl
  · rw [stepState_results_of_ne T r hc, succ_mod_of_ne hB hc]
    simp [h]

/-! ### Invariants of the folded loop body -/

lemma applyAll_nil (B T : ℕ) (st : LoopState) : applyAll B T [] st = st := rfl

lemma applyAll_cons (B T : ℕ) (r : ProjRecord) (rows : List ProjRecord)
    (st : LoopState) :
    applyAll B T (r :: rows) st = applyAll B T rows (stepState B T st r) := rfl

lemma applyAll_i (B T : ℕ) (rows : List ProjRecord) : ∀ (st : LoopState),
    (applyAll B T rows st).i = st.i + rows.length := by
  induction rows with
  | nil => intro st; simp [applyAll_nil]
  | cons r rows ih =>
      intro st
      rw [applyAll_cons, ih, stepState_i]
      simp only [List.length_cons]
      omega

lemma applyAll_flatten (B T : ℕ) (rows : List ProjRecord) : ∀ (st : LoopState),
    (applyAll B T rows st).flushes.flatten ++ (applyAll B T rows st).results
      = st.flushes.flatten ++ st.results ++ rows := by
  induction rows with
  | nil => intro st; simp [applyAll_nil]
  | cons r rows ih =>
      intro st
      rw [applyAll_cons, ih]
      by_cases h : (st.i + 1) % B = 0
      · rw [stepState_results_of_eq T r h, stepState_flushes_of_eq T r h]
        simp
      · rw [stepState_results_of_ne T r h, stepState_flushes_of_ne T r h]
        simp

lemma applyAll_results_len (B T : ℕ) (hB : 0 < B) (rows : List ProjRecord) :
    ∀ (st : LoopState), st.results.length = st.i % B →
    (applyAll B T rows st).results.length = (st.i + rows.length) % B := by
  induction rows with
  | nil => intro st h; simpa [applyAll_nil] using h
  | cons r rows ih =>
      intro st h
      rw [applyAll_cons]
      have h2 := ih _ (stepState_inv T hB r h)
      rw [h2]
      simp only [stepState_i, List.length_cons]
      congr 1
      omega

lemma applyAll_flushes_len (B T : ℕ) (hB : 0 < B) (rows : List ProjRecord) :
    ∀ (st : LoopState), st.results.length = st.i % B →
    (applyAll B T rows st).flushes.length + st.i / B
      = st.flushes.length + (st.i + rows.length) / B := by
  induction rows with
  | nil => intro st h; simp [applyAll_nil]
  | cons r rows ih =>
      intro st h
      rw [applyAll_cons]
      have h2 := ih _ (stepState_inv T hB r h)
      simp only [stepState_i, List.length_cons] at h2 ⊢
      have hIdx : st.i + 1 + rows.length = st.i + (rows.length + 1) := by omega
      rw [hIdx] at h2
      by_cases hc : (st.i + 1) % B = 0
      · rw [stepState_flushes_of_eq T r hc] at h2
        have hd : (st.i + 1) / B = st.i / B + 1 := by
          rw [succ_div_eq, if_pos hc]
        simp only [List.length_append, List.length_cons, List.length_nil] at h2
        omega
      · rw [stepState_flushes_of_ne T r hc] at h2
        have hd : (st.i + 1) / B = st.i / B := by
          rw [succ_div_eq, if_neg hc]
          omega
        omega

lemma applyAll_flushes_mem (B T : ℕ) (hB : 0 < B) (rows : List ProjRecord) :
    ∀ (st : LoopState), st.results.length = st.i % B →
    ∀ f ∈ (applyAll B T rows st).flushes, f ∈ st.flushes ∨ f.length = B := by
  induction rows with
  | nil => intro st _ f hf; exact Or.inl hf
  | cons r rows ih =>
      intro st h f hf
      rw [applyAll_cons] at hf
      rcases ih _ (stepState_inv T hB r h) f hf with hmem | hlen
      · by_cases hc : (st.i + 1) % B = 0
        · rw [stepState_flushes_of_eq T r hc] at hmem
          rcases List.mem_append.mp hmem with h1 | h1
          · exact Or.inl h1
          · right
            have hfr : f = st.results ++ [r] := by simpa using h1
            rw [hfr]
            simp only [List.length_append, List.length_cons, List.length_nil, h]
            exact succ_mod_eq_zero hB hc
        · rw [stepState_flushes_of_ne T r hc] at hmem
          exact Or.inl hmem
      · exact Or.inr hlen

lemma applyAll_prints (B T : ℕ) (rows : List ProjRecord) : ∀ (st : LoopState),
    (applyAll B T rows st).prints
      = st.prints ++ (List.range' (st.i + 1) rows.length).filter
          (fun j => decide (T ≠ 0 ∧ j % T = 0)) := by
  induction rows with
  | nil => intro st; simp [applyAll_nil]
  | cons r rows ih =>
      intro st
      rw [applyAll_cons, ih, stepState_prints]
      simp only [stepState_i, List.length_cons, List.range'_succ, List.filter_cons]
      by_cases hp : T ≠ 0 ∧ (st.i + 1) % T = 0
      · simp [hp]
      · simp [hp]

/-! ### Relating the loop to per-record projection -/

lemma projectAll_length (fn : List String) :
    ∀ (records : List RawRecord) (rows : List ProjRecord),
    projectAll fn records = Except.ok rows → rows.length = records.length := by
  intro records
  induction records with
  | nil =>
      intro rows h
      simp only [projectAll, Except.ok.injEq] at h
      subst h
      rfl
  | cons r rest ih =>
      intro rows h
      simp only [projectAll] at h
      cases hr : projectRecord fn r with
      | error k => rw [hr] at h; exact absurd h (by simp)
      | ok v =>
          rw [hr] at h
          cases hrest : projectAll fn rest with
          | error e => rw [hrest] at h; exact absurd h (by simp)
          | ok vs =>
              rw [hrest] at h
              simp only [Except.ok.injEq] at h
              subst h
              simp [ih vs hrest]

lemma runLoop_of_projectAll_ok (fn : List String) (B T : ℕ) :
    ∀ (records : List RawRecord) (rows : List ProjRecord) (st : LoopState),
    projectAll fn records = Except.ok rows →
    runLoop fn B T records st = (applyAll B T rows st, none) := by
  intro records
  induction records with
  | nil =>
      intro rows st h
      simp only [projectAll, Except.ok.injEq] at h
      subst h
      rfl
  | cons r rest ih =>
      intro rows st h
      simp only [projectAll] at h
      cases hr : projectRecord fn r with
      | error k => rw [hr] at h; exact absurd h (by simp)
      | ok v =>
          rw [hr] at h
          cases hrest : projectAll fn rest with
          | error e => rw [hrest] at h; exact absurd h (by simp)
          | ok vs =>
              rw [hrest] at h
              simp only [Except.ok.injEq] at h
              subst h
              simp only [runLoop, hr]
              rw [ih vs (stepState B T st v) hrest, applyAll_cons]

lemma runLoop_of_projectAll_err (fn : List String) (B T : ℕ) :
    ∀ (records : List RawRecord) (st : LoopState) (k : String),
    projectAll fn records = Except.error k →
    (runLoop fn B T records st).2 = some k := by
  intro records
  induction records with
  | nil => intro st k h; exact absurd h (by simp [projectAll])
  | cons r rest ih =>
      intro st k h
      simp only [projectAll] at h
      cases hr : projectRecord fn r with
      | error e =>
          rw [hr] at h
          simp only [Except.error.injEq] at h
          subst h
          simp [runLoop, hr]
      | ok v =>
          rw [hr] at h
          cases hrest : projectAll fn rest with
          | error e =>
              rw [hrest] at h
              simp only [Except.error.injEq] at h
              subst h
              simp only [runLoop, hr]
              exact ih (stepState B T st v) _ hrest
          | ok vs => rw [hrest] at h; exact absurd h (by simp)

/-- The first failing record determines where the loop stops: processing
`pre ++ bad :: rest` with `pre` all projectable and `bad` failing stops in
the state reached after `pre`, with the KeyError field of `bad`. -/
lemma runLoop_append_err (fn : List String) (B T : ℕ) :
    ∀ (pre : List RawRecord) (preRows : List ProjRecord)
      (bad : RawRecord) (rest : List RawRecord) (st : LoopState) (k : String),
    projectAll fn pre = Except.ok preRows →
    projectRecord fn bad = Except.error k →
    runLoop fn B T (pre ++ bad :: rest) st = (applyAll B T preRows st, some k) := by
  intro pre
  induction pre with
  | nil =>
      intro preRows bad rest st k hpre hbad
      simp only [projectAll, Except.ok.injEq] at hpre
      subst hpre
      simp [runLoop, hbad, applyAll_nil]
  | cons r pre ih =>
      intro preRows bad rest st k hpre hbad
      simp only [projectAll] at hpre
      cases hr : projectRecord fn r with
      | error e => rw [hr] at hpre; exact absurd hpre (by simp)
      | ok v =>
          rw [hr] at hpre
          cases hrest : projectAll fn pre with
          | error e => rw [hrest] at hpre; exact absurd hpre (by simp)
          | ok vs =>
              rw [hrest] at hpre
              simp only [Except.ok.injEq] at hpre
              subst hpre
              simp only [List.cons_append, runLoop, hr]
              rw [List.append_eq, ih vs bad rest (stepState B T st v) k hrest hbad,
                applyAll_cons]

lemma processRecords_snd (fn : List String) (B T : ℕ)
    (records : List RawRecord) (st : LoopState) :
    (processRecords fn B T records st).2 = (runLoop fn B T records st).2 := by
  rcases h : runLoop fn B T records st with ⟨st2, err⟩
  cases err <;> simp [processRecords, h]

lemma processRecords_ok (fn : List String) (B T : ℕ)
    (records : List RawRecord) (st : LoopState)
    (h : (processRecords fn B T records st).2 = none) :
    ∃ rows, projectAll fn records = Except.ok rows ∧
      processRecords fn B T records st
        = (finishState (applyAll B T rows st), none) := by
  cases hp : projectAll fn records with
  | error k =>
      exfalso
      rw [processRecords_snd] at h
      rw [runLoop_of_projectAll_err fn B T records st k hp] at h
      exact Option.noConfusion h
  | ok rows =>
      refine ⟨rows, rfl, ?_⟩
      simp [processRecords, runLoop_of_projectAll_ok fn B T records rows st hp]

/-! ### The epilogue -/

lemma finishState_flatten (st : LoopState) :
    (finishState st).flushes.flatten = st.flushes.flatten ++ st.results := by
  by_cases h : st.results.isEmpty
  · rw [List.isEmpty_iff] at h
    simp [finishState, h]
  · rw [finishState, if_neg h]
    simp

lemma finishState_of_empty {st : LoopState} (h : st.results = []) :
    finishState st = st := by
  simp [finishState, h]

lemma finishState_flushes_of_nonempty {st : LoopState} (h : st.results ≠ []) :
    (finishState st).flushes = st.flushes ++ [st.results] := by
  rw [finishState, if_neg (by simpa using h)]

lemma finishState_prints_of_nonempty {st : LoopState} (h : st.results ≠ []) :
    (finishState st).prints = st.prints ++ [st.i] := by
  rw [finishState, if_neg (by simpa using h)]

/-! ### Projection lemmas -/

lemma selectFields_keys (props : RawRecord) :
    ∀ (fn : List String) (sel : List (String × Value)),
    selectFields fn props = Except.ok sel → sel.map Prod.fst = fn := by
  intro fn
  induction fn with
  | nil =>
      intro sel h
      simp only [selectFields, Except.ok.injEq] at h
      subst h
      rfl
  | cons k ks ih =>
      intro sel h
      simp only [selectFields] at h
      cases hl : lookupKey props k with
      | none => rw [hl] at h; exact absurd h (by simp)
      | some v =>
          rw [hl] at h
          cases hs : selectFields ks props with
          | error e => rw [hs] at h; exact absurd h (by simp)
          | ok rest =>
              rw [hs] at h
              simp only [Except.ok.injEq] at h
              subst h
              simp [ih rest hs]

lemma selectFields_mem (props : RawRecord) :
    ∀ (fn : List String) (sel : List (String × Value)),
    selectFields fn props = Except.ok sel →
    ∀ kv ∈ sel, lookupKey props kv.1 = some kv.2 := by
  intro fn
  induction fn with
  | nil =>
      intro sel h kv hkv
      simp only [selectFields, Except.ok.injEq] at h
      subst h
      exact absurd hkv (by simp)
  | cons k ks ih =>
      intro sel h kv hkv
      simp only [selectFields] at h
      cases hl : lookupKey props k with
      | none => rw [hl] at h; exact absurd h (by simp)
      | some v =>
          rw [hl] at h
          cases hs : selectFields ks props with
          | error e => rw [hs] at h; exact absurd h (by simp)
          | ok rest =>
              rw [hs] at h
              simp only [Except.ok.injEq] at h
              subst h
              rcases List.mem_cons.mp hkv with h1 | h1
              · subst h1
                exact hl
              · exact ih rest hs kv h1

lemma projectRecord_keys {fn : List String} {props : RawRecord}
    {proj : ProjRecord} (h : projectRecord fn props = Except.ok proj) :
    proj.map Prod.fst = fn := by
  rw [projectRecord] at h
  cases hs : selectFields fn props with
  | error e => rw [hs] at h; exact absurd h (by simp)
  | ok sel =>
      rw [hs] at h
      simp only [Except.ok.injEq] at h
      subst h
      rw [List.map_map]
      exact selectFields_keys props fn sel hs

lemma projectRecord_mem {fn : List String} {props : RawRecord}
    {proj : ProjRecord} (h : projectRecord fn props = Except.ok proj) :
    ∀ kv ∈ proj, ∃ v, lookupKey props kv.1 = some v ∧ kv.2 = formatValue v := by
  rw [projectRecord] at h
  cases hs : selectFields fn props with
  | error e => rw [hs] at h; exact absurd h (by simp)
  | ok sel =>
      rw [hs] at h
      simp only [Except.ok.injEq] at h
      subst h
      intro kv hkv
      rcases List.mem_map.mp hkv with ⟨kv0, hkv0, hEq⟩
      refine ⟨kv0.2, ?_, ?_⟩
      · rw [← hEq]
        exact selectFields_mem props fn sel hs kv0 hkv0
      · rw [← hEq]

lemma selectFields_error_of_missing (props : RawRecord) :
    ∀ (fn : List String), (∃ k ∈ fn, lookupKey props k = none) →
    ∃ e, selectFields fn props = Except.error e ∧ e ∈ fn ∧
      lookupKey props e = none := by
  intro fn
  induction fn with
  | nil =>
      intro h
      rcases h with ⟨k, hk, _⟩
      exact absurd hk (by simp)
  | cons k ks ih =>
      intro h
      cases hl : lookupKey props k with
      | none =>
          exact ⟨k, by simp [selectFields, hl], by simp, hl⟩
      | some v =>
          have hks : ∃ k2 ∈ ks, lookupKey props k2 = none := by
            rcases h with ⟨k2, hk2, hnone⟩
            rcases List.mem_cons.mp hk2 with h1 | h1
            · subst h1
              rw [hl] at hnone
              exact absurd hnone (by simp)
            · exact ⟨k2, h1, hnone⟩
          rcases ih hks with ⟨e, he, hmem, hnone⟩
          exact ⟨e, by simp [selectFields, hl, he], by simp [hmem], hnone⟩

lemma projectRecord_error_of_missing {fn : List String} {props : RawRecord}
    (h : ∃ k ∈ fn, lookupKey props k = none) :
    ∃ e, projectRecord fn props = Except.error e ∧ e ∈ fn ∧
      lookupKey props e = none := by
  rcases selectFields_error_of_missing props fn h with ⟨e, he, hmem, hnone⟩
  exact ⟨e, by simp [projectRecord, he], hmem, hnone⟩

/-! ### Every written row carries exactly the configured fieldnames -/

lemma runLoop_keys (fn : List String) (B T : ℕ) :
    ∀ (records : List RawRecord) (st : LoopState),
    (∀ f ∈ st.flushes, ∀ row ∈ f, row.map Prod.fst = fn) →
    (∀ row ∈ st.results, row.map Prod.fst = fn) →
    (∀ f ∈ (runLoop fn B T records st).1.flushes, ∀ row ∈ f,
        row.map Prod.fst = fn) ∧
    (∀ row ∈ (runLoop fn B T records st).1.results, row.map Prod.fst = fn) := by
  intro records
  induction records with
  | nil => intro st h1 h2; exact ⟨h1, h2⟩
  | cons r rest ih =>
      intro st h1 h2
      cases hr : projectRecord fn r with
      | error k =>
          simp only [runLoop, hr]
          exact ⟨h1, h2⟩
      | ok v =>
          simp only [runLoop, hr]
          apply ih
          · intro f hf row hrow
            by_cases hc : (st.i + 1) % B = 0
            · rw [stepState_flushes_of_eq T v hc] at hf
              rcases List.mem_append.mp hf with hm | hm
              · exact h1 f hm row hrow
              · have hfr : f = st.results ++ [v] := by simpa using hm
                subst hfr
                rcases List.mem_append.mp hrow with hm2 | hm2
                · exact h2 row hm2
                · have hrv : row = v := by simpa using hm2
                  subst hrv
                  exact projectRecord_keys hr
            · rw [stepState_flushes_of_ne T v hc] at hf
              exact h1 f hf row hrow
          · intro row hrow
            by_cases hc : (st.i + 1) % B = 0
            · rw [stepState_results_of_eq T v hc] at hrow
              exact absurd hrow (by simp)
            · rw [stepState_results_of_ne T v hc] at hrow
              rcases List.mem_append.mp hrow with hm | hm
              · exact h2 row hm
              · have hrv : row = v := by simpa using hm
                subst hrv
                exact projectRecord_keys hr

lemma finishState_keys {fn : List String} {st : LoopState}
    (h1 : ∀ f ∈ st.flushes, ∀ row ∈ f, row.map Prod.fst = fn)
    (h2 : ∀ row ∈ st.results, row.map Prod.fst = fn) :
    ∀ f ∈ (finishState st).flushes, ∀ row ∈ f, row.map Prod.fst = fn := by
  by_cases h : st.results.isEmpty
  · intro f hf
    rw [finishState, if_pos h] at hf
    exact h1 f hf
  · intro f hf
    rw [finishState, if_neg h] at hf
    rcases List.mem_append.mp hf with hm | hm
    · exact h1 f hm
    · have hfr : f = st.results := by simpa using hm
      subst hfr
      exact h2

lemma processRecords_keys (fn : List String) (B T : ℕ)
    (records : List RawRecord) :
    ∀ f ∈ (processRecords fn B T records initState).1.flushes, ∀ row ∈ f,
      row.map Prod.fst = fn := by
  have h := runLoop_keys fn B T records initState
    (by intro f hf; exact absurd hf (by simp [initState]))
    (by intro row hrow; exact absurd hrow (by simp [initState]))
  rcases hrl : runLoop fn B T records initState with ⟨st2, err⟩
  rw [hrl] at h
  cases err with
  | none =>
      simp only [processRecords, hrl]
      exact finishState_keys h.1 h.2
  | some k =>
      simp only [processRecords, hrl]
      exact h.1

/-! ### Characterization of a successful run from the initial state -/

lemma processRecords_init_summary (fn : List String) (B T : ℕ) (hB : 0 < B)
    (records : List RawRecord)
    (hok : (processRecords fn B T records initState).2 = none) :
    ∃ rows, projectAll fn records = Except.ok rows ∧
      rows.length = records.length ∧
      (processRecords fn B T records initState).1.flushes.flatten = rows ∧
      (processRecords fn B T records initState).1.flushes.length
        = (records.length + B - 1) / B ∧
      (∀ f ∈ (processRecords fn B T records initState).1.flushes.dropLast,
        f.length = B) ∧
      (processRecords fn B T records initState).1.prints
        = (List.range' 1 records.length).filter
            (fun j => decide (T ≠ 0 ∧ j % T = 0))
          ++ (if records.length % B = 0 then [] else [records.length]) := by
  rcases processRecords_ok fn B T records initState hok with ⟨rows, hp, hEq⟩
  have hlen : rows.length = records.length := projectAll_length fn records rows hp
  have hinv0 : (initState : LoopState).results.length = initState.i % B := by
    simp [initState]
  have hi : (applyAll B T rows initState).i = rows.length := by
    rw [applyAll_i]
    simp [initState]
  have hres : (applyAll B T rows initState).results.length = rows.length % B := by
    rw [applyAll_results_len B T hB rows initState hinv0]
    simp [initState]
  have hflat : (applyAll B T rows initState).flushes.flatten
      ++ (applyAll B T rows initState).results = rows := by
    have h2 := applyAll_flatten B T rows initState
    simpa [initState] using h2
  have hfl : (applyAll B T rows initState).flushes.length = rows.length / B := by
    have h2 := applyAll_flushes_len B T hB rows initState hinv0
    simpa [initState] using h2
  have hmem : ∀ f ∈ (applyAll B T rows initState).flushes, f.length = B := by
    intro f hf
    rcases applyAll_flushes_mem B T hB rows initState hinv0 f hf with hm | hm
    · exact absurd hm (by simp [initState])
    · exact hm
  have hpr : (applyAll B T rows initState).prints
      = (List.range' 1 rows.length).filter
          (fun j => decide (T ≠ 0 ∧ j % T = 0)) := by
    have h2 := applyAll_prints B T rows initState
    simpa [initState] using h2
  refine ⟨rows, hp, hlen, ?_, ?_, ?_, ?_⟩ <;> rw [hEq]
  · rw [finishState_flatten]
    exact hflat
  · by_cases hz : rows.length % B = 0
    · have hresnil : (applyAll B T rows initState).results = [] :=
        List.length_eq_zero.mp (by rw [hres, hz])
      rw [finishState_of_empty hresnil, hfl, hlen,
        ceil_div_of_mod_eq_zero hB (by rw [← hlen]; exact hz)]
    · have hresne : (applyAll B T rows initState).results ≠ [] := by
        intro hcontra
        apply hz
        rw [← hres, hcontra]
        rfl
      rw [finishState_flushes_of_nonempty hresne]
      simp only [List.length_append, List.length_cons, List.length_nil]
      rw [hfl, hlen, ceil_div_of_mod_ne_zero hB (by rw [← hlen]; exact hz)]
  · by_cases hz : rows.length % B = 0
    · have hresnil : (applyAll B T rows initState).results = [] :=
        List.length_eq_zero.mp (by rw [hres, hz])
      rw [finishState_of_empty hresnil]
      intro f hf
      exact hmem f (List.mem_of_mem_dropLast hf)
    · have hresne : (applyAll B T rows initState).results ≠ [] := by
        intro hcontra
        apply hz
        rw [← hres, hcontra]
        rfl
      rw [finishState_flushes_of_nonempty hresne, List.dropLast_concat]
      exact hmem
  · by_cases hz : rows.length % B = 0
    · have hresnil : (applyAll B T rows initState).results = [] :=
        List.length_eq_zero.mp (by rw [hres, hz])
      rw [finishState_of_empty hresnil, hpr, hlen, if_pos (by rw [← hlen]; exact hz)]
      simp
    · have hresne : (applyAll B T rows initState).results ≠ [] := by
        intro hcontra
        apply hz
        rw [← hres, hcontra]
        rfl
      rw [finishState_prints_of_nonempty hresne, hpr, hi, hlen,
        if_neg (by rw [← hlen]; exact hz)]

/-- The returned value is the output path on success and nothing when an
error propagates (the function never returns after an exception). -/
lemma zonal_stats_retval (features raster output_folder filename : String)
    (keep_fields stats : List String) (T B : ℕ) (use_points : Bool)
    (ck : List (String × Value)) (engine_records : List RawRecord) :
    (zonal_stats features raster output_folder filename keep_fields stats
        T B use_points ck engine_records).retval
      = if (zonal_stats features raster output_folder filename keep_fields stats
            T B use_points ck engine_records).err = none
        then some ((zonal_stats features raster output_folder filename keep_fields
            stats T B use_points ck engine_records).output_filepath)
        else none := rfl

/-- Crossing a batch boundary: if the residue is one short of the batch
size, the next count is an exact multiple. -/
lemma succ_mod_eq_zero_of_boundary {B i : ℕ} (h : i % B + 1 = B) :
    (i + 1) % B = 0 := by
  have hdm := Nat.div_add_mod i B
  have h2 : i + 1 = B * (i / B + 1) := by
    rw [Nat.mul_add, Nat.mul_one]
    omega
  rw [h2, Nat.mul_mod_right]

/-- A left factor of a concatenation is the prefix of that length. -/
lemma append_take_length {α : Type} {l1 l2 l : List α} (h : l1 ++ l2 = l) :
    l1 = l.take l1.length := by
  subst h
  exact (List.take_left l1 l2).symm

/-- When the first failing record splits the stream as `pre ++ bad :: rest`,
the loop propagates the KeyError of `bad` and the file holds exactly the
full batches among the projections of `pre`. -/
lemma processRecords_first_error (fn : List String) (B T : ℕ) (hB : 0 < B)
    (pre : List RawRecord) (preRows : List ProjRecord) (bad : RawRecord)
    (rest : List RawRecord) (e : String)
    (hpre : projectAll fn pre = Except.ok preRows)
    (hbad : projectRecord fn bad = Except.error e) :
    (processRecords fn B T (pre ++ bad :: rest) initState).2 = some e ∧
    (processRecords fn B T (pre ++ bad :: rest) initState).1.flushes.flatten
      = preRows.take (B * (pre.length / B)) ∧
    (processRecords fn B T (pre ++ bad :: rest) initState).1.flushes.flatten.length
      ≤ pre.length := by
  have hrl := runLoop_append_err fn B T pre preRows bad rest initState e hpre hbad
  have hlenPre : preRows.length = pre.length := projectAll_length fn pre preRows hpre
  have hsnd : (processRecords fn B T (pre ++ bad :: rest) initState).2 = some e := by
    rw [processRecords_snd, hrl]
  have hfst : (processRecords fn B T (pre ++ bad :: rest) initState).1
      = applyAll B T preRows initState := by
    simp [processRecords, hrl]
  have hflat : (applyAll B T preRows initState).flushes.flatten
      ++ (applyAll B T preRows initState).results = preRows := by
    have h2 := applyAll_flatten B T preRows initState
    simpa [initState] using h2
  have hres : (applyAll B T preRows initState).results.length
      = pre.length % B := by
    have h2 := applyAll_results_len B T hB preRows initState (by simp [initState])
    rw [← hlenPre]
    simpa [initState] using h2
  have hdm := Nat.div_add_mod pre.length B
  have hlen2 : (applyAll B T preRows initState).flushes.flatten.length
      + (applyAll B T preRows initState).results.length = pre.length := by
    have h3 := congrArg List.length hflat
    rw [List.length_append] at h3
    rw [hlenPre] at h3
    exact h3
  have hflen : (applyAll B T preRows initState).flushes.flatten.length
      = B * (pre.length / B) := by
    rw [hres] at hlen2
    omega
  refine ⟨hsnd, ?_, ?_⟩
  · have h4 := append_take_length hflat
    rw [hflen] at h4
    rw [hfst]
    exact h4
  · rw [hfst, hflen]
    omega

/-! ### Claim theorems -/

/-- Claim C1: for every input feature count F and every positive batch size
B, a successful run performs exactly ceil(F / B) flush operations
(`writer.writerows` calls), and every flush except possibly the last writes
exactly B projected records. -/
theorem flush_batching (features raster output_folder filename : String)
    (keep_fields stats : List String) (T B : ℕ) (use_points : Bool)
    (ck : List (String × Value)) (engine_records : List RawRecord)
    (hB : 0 < B)
    (hok : (zonal_stats features raster output_folder filename keep_fields
      stats T B use_points ck engine_records).err = none) :
    (zonal_stats features raster output_folder filename keep_fields
        stats T B use_points ck engine_records).flushes.length
      = (engine_records.length + B - 1) / B ∧
    ∀ f ∈ (zonal_stats features raster output_folder filename keep_fields
        stats T B use_points ck engine_records).flushes.dropLast,
      f.length = B := by
  rcases processRecords_init_summary
      (if !use_points then stats ++ keep_fields else "value" :: keep_fields)
      B T hB engine_records hok with ⟨rows, _, _, _, hcount, hdrop, _⟩
  exact ⟨hcount, hdrop⟩

/-- Claim C1 witness: a run of 3 features with batch size 2 flushes
ceil(3/2) = 2 times and the non-final flush holds exactly 2 records. -/
theorem flush_batching_witness :
    0 < 2 ∧
    (zonal_stats "f.shp" "r.tif" "o" "x" ["a"] [] 0 2 false []
      [[("a", Value.vInt 1)], [("a", Value.vInt 2)], [("a", Value.vInt 3)]]).err
        = none ∧
    ((zonal_stats "f.shp" "r.tif" "o" "x" ["a"] [] 0 2 false []
        [[("a", Value.vInt 1)], [("a", Value.vInt 2)], [("a", Value.vInt 3)]]).flushes.length
      = ([[("a", Value.vInt 1)], [("a", Value.vInt 2)],
          [("a", Value.vInt 3)]].length + 2 - 1) / 2 ∧
    ∀ f ∈ (zonal_stats "f.shp" "r.tif" "o" "x" ["a"] [] 0 2 false []
        [[("a", Value.vInt 1)], [("a", Value.vInt 2)],
          [("a", Value.vInt 3)]]).flushes.dropLast,
      f.length = 2) :=
  ⟨by decide, by decide,
    flush_batching "f.shp" "r.tif" "o" "x" ["a"] [] 0 2 false []
      [[("a", Value.vInt 1)], [("a", Value.vInt 2)], [("a", Value.vInt 3)]]
      (by decide) (by decide)⟩

/-- Claim C2: on a successful run the output file holds exactly one header
row, written before any data row, followed by one data row per input
feature, and the data rows are the projections of the input records in the
input order (identity permutation, no reordering, no deduplication). -/
theorem output_rows_in_order (features raster output_folder filename : String)
    (keep_fields stats : List String) (T B : ℕ) (use_points : Bool)
    (ck : List (String × Value)) (engine_records : List RawRecord)
    (hB : 0 < B)
    (hok : (zonal_stats features raster output_folder filename keep_fields
      stats T B use_points ck engine_records).err = none) :
    projectAll (if !use_points then stats ++ keep_fields
        else "value" :: keep_fields) engine_records
      = Except.ok ((zonal_stats features raster output_folder filename
          keep_fields stats T B use_points ck engine_records).flushes.flatten) ∧
    (zonal_stats features raster output_folder filename keep_fields stats
        T B use_points ck engine_records).flushes.flatten.length
      = engine_records.length ∧
    (zonal_stats features raster output_folder filename keep_fields stats
        T B use_points ck engine_records).csvRows
      = ((if !use_points then stats ++ keep_fields
            else "value" :: keep_fields).map Value.vStr)
        :: ((zonal_stats features raster output_folder filename keep_fields
            stats T B use_points ck engine_records).flushes.flatten.map
              (fun row => row.map Prod.snd)) := by
  rcases processRecords_init_summary
      (if !use_points then stats ++ keep_fields else "value" :: keep_fields)
      B T hB engine_records hok with ⟨rows, hp, hlen, hflat, _, _, _⟩
  refine ⟨?_, ?_, rfl⟩
  · have h2 : (zonal_stats features raster output_folder filename keep_fields
        stats T B use_points ck engine_records).flushes.flatten = rows := hflat
    rw [h2]
    exact hp
  · have h2 : (zonal_stats features raster output_folder filename keep_fields
        stats T B use_points ck engine_records).flushes.flatten = rows := hflat
    rw [h2, hlen]

/-- Claim C2 witness: a concrete 3-feature run writes 3 data rows after the
header, in input order. -/
theorem output_rows_in_order_witness :
    0 < 2 ∧
    (zonal_stats "f.shp" "r.tif" "o" "x" ["b"] [] 0 2 false []
      [[("b", Value.vInt 1)], [("b", Value.vInt 2)], [("b", Value.vInt 3)]]).err
        = none ∧
    (projectAll (if !false then [] ++ ["b"] else "value" :: ["b"])
        [[("b", Value.vInt 1)], [("b", Value.vInt 2)], [("b", Value.vInt 3)]]
      = Except.ok ((zonal_stats "f.shp" "r.tif" "o" "x" ["b"] [] 0 2 false []
          [[("b", Value.vInt 1)], [("b", Value.vInt 2)],
            [("b", Value.vInt 3)]]).flushes.flatten) ∧
    (zonal_stats "f.shp" "r.tif" "o" "x" ["b"] [] 0 2 false []
        [[("b", Value.vInt 1)], [("b", Value.vInt 2)],
          [("b", Value.vInt 3)]]).flushes.flatten.length
      = [[("b", Value.vInt 1)], [("b", Value.vInt 2)],
          [("b", Value.vInt 3)]].length ∧
    (zonal_stats "f.shp" "r.tif" "o" "x" ["b"] [] 0 2 false []
        [[("b", Value.vInt 1)], [("b", Value.vInt 2)],
          [("b", Value.vInt 3)]]).csvRows
      = ((if !false then [] ++ ["b"] else "value" :: ["b"]).map Value.vStr)
        :: ((zonal_stats "f.shp" "r.tif" "o" "x" ["b"] [] 0 2 false []
            [[("b", Value.vInt 1)], [("b", Value.vInt 2)],
              [("b", Value.vInt 3)]]).flushes.flatten.map
              (fun row => row.map Prod.snd))) :=
  ⟨by decide, by decide,
    output_rows_in_order "f.shp" "r.tif" "o" "x" ["b"] [] 0 2 false []
      [[("b", Value.vInt 1)], [("b", Value.vInt 2)], [("b", Value.vInt 3)]]
      (by decide) (by decide)⟩

/-- Claim C3: in every successfully projected record, each field value was
looked up in the raw record and passed through `formatValue`, which renders
a floating-point value as its text rounded to 5 decimal places with exactly
5 fractional digits (3.1 becomes "3.10000") and passes every non-float
value through unchanged. -/
theorem float_rendering (fn : List String) (props : RawRecord)
    (proj : ProjRecord) (h : projectRecord fn props = Except.ok proj) :
    (∀ kv ∈ proj, ∃ v, lookupKey props kv.1 = some v ∧ kv.2 = formatValue v) ∧
    (∀ q : ℚ, formatValue (Value.vFloat q) = Value.vStr (formatFloat5 q)) ∧
    (∀ v : Value, (∀ q : ℚ, v ≠ Value.vFloat q) → formatValue v = v) ∧
    formatFloat5 (31 / 10 : ℚ) = "3.10000" ∧
    (∀ q : ℚ, ∃ intPart fracPart : String,
      formatFloat5 q = intPart ++ "." ++ fracPart ∧ fracPart.length = 5) := by
  refine ⟨projectRecord_mem h, fun q => rfl, ?_, ?_, ?_⟩
  · intro v hv
    cases v with
    | vFloat q => exact absurd rfl (hv q)
    | vInt n => rfl
    | vStr s => rfl
    | vNull => rfl
  · have h31 : (31 / 10 : ℚ) = Rat.divInt 31 10 := by
      rw [Rat.divInt_eq_div]
      norm_num
    rw [h31]
    decide
  · intro q
    exact ⟨(if roundHalfEven5 q < 0 then "-" else "")
        ++ toString ((roundHalfEven5 q).natAbs / 100000),
      frac5 ((roundHalfEven5 q).natAbs % 100000), rfl, rfl⟩

/-- Claim C3 witness: projecting a record with a float, an int and a string
field formats only the float, as 3.1 to "3.10000". -/
theorem float_rendering_witness :
    projectRecord ["a", "b", "c"]
        [("a", Value.vFloat (Rat.divInt 31 10)), ("b", Value.vInt 7),
          ("c", Value.vStr "x")]
      = Except.ok [("a", Value.vStr "3.10000"), ("b", Value.vInt 7),
          ("c", Value.vStr "x")] ∧
    ((∀ kv ∈ [("a", Value.vStr "3.10000"), ("b", Value.vInt 7),
        ("c", Value.vStr "x")],
      ∃ v, lookupKey [("a", Value.vFloat (Rat.divInt 31 10)), ("b", Value.vInt 7),
          ("c", Value.vStr "x")] kv.1 = some v ∧ kv.2 = formatValue v) ∧
    (∀ q : ℚ, formatValue (Value.vFloat q) = Value.vStr (formatFloat5 q)) ∧
    (∀ v : Value, (∀ q : ℚ, v ≠ Value.vFloat q) → formatValue v = v) ∧
    formatFloat5 (31 / 10 : ℚ) = "3.10000" ∧
    (∀ q : ℚ, ∃ intPart fracPart : String,
      formatFloat5 q = intPart ++ "." ++ fracPart ∧ fracPart.length = 5)) :=
  ⟨by decide,
    float_rendering ["a", "b", "c"]
      [("a", Value.vFloat (Rat.divInt 31 10)), ("b", Value.vInt 7),
        ("c", Value.vStr "x")]
      [("a", Value.vStr "3.10000"), ("b", Value.vInt 7),
        ("c", Value.vStr "x")]
      (by decide)⟩

/-- Claim C4: container resolution is a total function; it attaches a layer
exactly when the parent segment of the path split ends with ".gdb" or
".gpkg" and the leaf segment contains no dot; on the three specification
examples it returns the stated opening specification. -/
theorem container_resolution :
    (∀ p : String, (get_fiona_args p).layer.isSome = true ↔
      ((strEndsWith (splitPath p).1 ".gdb" = true ∨
          strEndsWith (splitPath p).1 ".gpkg" = true) ∧
        ¬ (splitPath p).2.data.contains '.' = true)) ∧
    get_fiona_args "data.gdb/layer1" = ⟨"data.gdb", some "layer1"⟩ ∧
    get_fiona_args "data.shp" = ⟨"data.shp", none⟩ ∧
    get_fiona_args "data.gpkg/layer.with.dot"
      = ⟨"data.gpkg/layer.with.dot", none⟩ := by
  refine ⟨?_, by decide, by decide, by decide⟩
  intro p
  by_cases h : ((strEndsWith (splitPath p).1 ".gdb"
      || strEndsWith (splitPath p).1 ".gpkg")
      && !((splitPath p).2.data.contains '.')) = true
  · simp only [get_fiona_args]
    rw [if_pos h]
    simp only [Option.isSome_some, true_iff]
    rw [Bool.and_eq_true, Bool.or_eq_true, Bool.not_eq_true'] at h
    refine ⟨h.1, ?_⟩
    rw [h.2]
    simp
  · simp only [get_fiona_args]
    rw [if_neg h]
    simp only [Option.isSome_none, Bool.false_eq_true, false_iff]
    intro hcon
    apply h
    rw [Bool.and_eq_true, Bool.or_eq_true, Bool.not_eq_true']
    refine ⟨hcon.1, ?_⟩
    cases hcc : (splitPath p).2.data.contains '.' with
    | false => rfl
    | true => exact absurd hcc hcon.2

/-- Claim C7: in point mode the `stats` argument is ignored entirely: two
runs differing only in `stats` produce identical observable output,
including the engine call, the header, every written row and the returned
path. -/
theorem point_mode_ignores_stats (features raster output_folder filename : String)
    (keep_fields stats1 stats2 : List String) (T B : ℕ)
    (ck : List (String × Value)) (engine_records : List RawRecord) :
    zonal_stats features raster output_folder filename keep_fields stats1
        T B true ck engine_records
      = zonal_stats features raster output_folder filename keep_fields stats2
        T B true ck engine_records := rfl

/-- Claim C8: the output field order is fixed before any record is written:
the header equals the stats names followed by the keep fields in zonal
mode, and "value" followed by the keep fields in point mode; the header row
is the first csv row; and every written data row carries exactly the header
fields in header order. -/
theorem field_order_stable (features raster output_folder filename : String)
    (keep_fields stats : List String) (T B : ℕ) (use_points : Bool)
    (ck : List (String × Value)) (engine_records : List RawRecord) :
    (zonal_stats features raster output_folder filename keep_fields stats
        T B use_points ck engine_records).header
      = (if use_points then "value" :: keep_fields else stats ++ keep_fields) ∧
    (zonal_stats features raster output_folder filename keep_fields stats
        T B use_points ck engine_records).csvRows.head?
      = some ((zonal_stats features raster output_folder filename keep_fields
          stats T B use_points ck engine_records).header.map Value.vStr) ∧
    ∀ f ∈ (zonal_stats features raster output_folder filename keep_fields
        stats T B use_points ck engine_records).flushes, ∀ row ∈ f,
      row.map Prod.fst
        = (zonal_stats features raster output_folder filename keep_fields
            stats T B use_points ck engine_records).header := by
  refine ⟨by cases use_points <;> rfl, rfl, ?_⟩
  exact processRecords_keys
    (if !use_points then stats ++ keep_fields else "value" :: keep_fields)
    B T engine_records

/-- Claim C10: the caller-supplied extra keyword arguments are discarded
before use (line 73 rebinds `kwargs`), so two runs differing only in the
extra options are identical; and the keyword mapping forwarded to the
statistics engine (and to `fiona.open`) is exactly the optional layer entry
of the container resolution. -/
theorem kwargs_overwritten (features raster output_folder filename : String)
    (keep_fields stats : List String) (T B : ℕ) (use_points : Bool)
    (ck1 ck2 : List (String × Value)) (engine_records : List RawRecord) :
    (zonal_stats features raster output_folder filename keep_fields stats
        T B use_points ck1 engine_records
      = zonal_stats features raster output_folder filename keep_fields stats
        T B use_points ck2 engine_records) ∧
    (zonal_stats features raster output_folder filename keep_fields stats
        T B use_points ck1 engine_records).engine_call.layerKwargs
      = (get_fiona_args features).layer ∧
    (zonal_stats features raster output_folder filename keep_fields stats
        T B use_points ck1 engine_records).fiona_open_kwargs
      = (get_fiona_args features).layer := by
  refine ⟨rfl, ?_, rfl⟩
  cases use_points <;> rfl

/-- Claim C5 counterexample: with reporting disabled (threshold 0, the
falsy Python value, standing for `None`) a one-feature run with batch size
2000 still emits the final progress count 1, because the final print of
zonal.py line 127 is guarded only by the buffer being nonempty; the claim
as stated says that no progress count is emitted when reporting is
disabled. -/
theorem progress_disabled_counterexample :
    (zonal_stats "features.shp" "raster.tif" "out" "x" ["a"] [] 0 2000 false []
      [[("a", Value.vInt 1)]]).prints = [1] := by
  decide

/-- Claim C5 (amended): on a successful run, a progress count is emitted
during the stream exactly when reporting is enabled and the running count
is a multiple of the threshold, and one additional final count F is emitted
at stream completion exactly when the final partial batch is nonempty (F
not a multiple of the batch size), regardless of whether reporting is
enabled. -/
theorem progress_emissions (features raster output_folder filename : String)
    (keep_fields stats : List String) (T B : ℕ) (use_points : Bool)
    (ck : List (String × Value)) (engine_records : List RawRecord)
    (hB : 0 < B)
    (hok : (zonal_stats features raster output_folder filename keep_fields
      stats T B use_points ck engine_records).err = none) :
    (zonal_stats features raster output_folder filename keep_fields stats
        T B use_points ck engine_records).prints
      = (List.range' 1 engine_records.length).filter
          (fun j => decide (T ≠ 0 ∧ j % T = 0))
        ++ (if engine_records.length % B = 0 then []
            else [engine_records.length]) := by
  rcases processRecords_init_summary
      (if !use_points then stats ++ keep_fields else "value" :: keep_fields)
      B T hB engine_records hok with ⟨rows, _, _, _, _, _, hpr⟩
  exact hpr

/-- Claim C5 witness: with threshold 2 and batch size 3, a successful run
of 7 features prints 2, 4, 6 during the stream and a final 7. -/
theorem progress_emissions_witness :
    0 < 3 ∧
    (zonal_stats "f.shp" "r.tif" "o" "x" ["a"] [] 2 3 false []
      [[("a", Value.vInt 1)], [("a", Value.vInt 2)], [("a", Value.vInt 3)],
        [("a", Value.vInt 4)], [("a", Value.vInt 5)], [("a", Value.vInt 6)],
        [("a", Value.vInt 7)]]).err = none ∧
    (zonal_stats "f.shp" "r.tif" "o" "x" ["a"] [] 2 3 false []
        [[("a", Value.vInt 1)], [("a", Value.vInt 2)], [("a", Value.vInt 3)],
          [("a", Value.vInt 4)], [("a", Value.vInt 5)], [("a", Value.vInt 6)],
          [("a", Value.vInt 7)]]).prints
      = (List.range' 1 [[("a", Value.vInt 1)], [("a", Value.vInt 2)],
            [("a", Value.vInt 3)], [("a", Value.vInt 4)], [("a", Value.vInt 5)],
            [("a", Value.vInt 6)], [("a", Value.vInt 7)]].length).filter
          (fun j => decide (2 ≠ 0 ∧ j % 2 = 0))
        ++ (if [[("a", Value.vInt 1)], [("a", Value.vInt 2)],
            [("a", Value.vInt 3)], [("a", Value.vInt 4)], [("a", Value.vInt 5)],
            [("a", Value.vInt 6)], [("a", Value.vInt 7)]].length % 3 = 0 then []
            else [[[("a", Value.vInt 1)], [("a", Value.vInt 2)],
              [("a", Value.vInt 3)], [("a", Value.vInt 4)], [("a", Value.vInt 5)],
              [("a", Value.vInt 6)], [("a", Value.vInt 7)]].length]) :=
  ⟨by decide, by decide,
    progress_emissions "f.shp" "r.tif" "o" "x" ["a"] [] 2 3 false []
      [[("a", Value.vInt 1)], [("a", Value.vInt 2)], [("a", Value.vInt 3)],
        [("a", Value.vInt 4)], [("a", Value.vInt 5)], [("a", Value.vInt 6)],
        [("a", Value.vInt 7)]]
      (by decide) (by decide)⟩

/-- Claim C6: if a configured output field is absent from some feature's
result record (the stream splitting as pre ++ bad :: rest with every record
of pre projectable and bad missing a configured field), the run fails with
that missing field as the propagated KeyError, returns no path, and the
data written to the file consists of exactly the full batches among the
projections of the earlier features: no row referencing the failing
feature, partial or otherwise, is ever written, and no default value is
substituted. -/
theorem missing_field_aborts (features raster output_folder filename : String)
    (keep_fields stats : List String) (T B : ℕ) (use_points : Bool)
    (ck : List (String × Value)) (pre : List RawRecord)
    (preRows : List ProjRecord) (bad : RawRecord) (rest : List RawRecord)
    (hB : 0 < B)
    (hpre : projectAll (if !use_points then stats ++ keep_fields
        else "value" :: keep_fields) pre = Except.ok preRows)
    (hmiss : ∃ k ∈ (if !use_points then stats ++ keep_fields
        else "value" :: keep_fields), lookupKey bad k = none) :
    ∃ e, (zonal_stats features raster output_folder filename keep_fields stats
          T B use_points ck (pre ++ bad :: rest)).err = some e ∧
      e ∈ (if !use_points then stats ++ keep_fields
          else "value" :: keep_fields) ∧
      lookupKey bad e = none ∧
      (zonal_stats features raster output_folder filename keep_fields stats
          T B use_points ck (pre ++ bad :: rest)).retval = none ∧
      (zonal_stats features raster output_folder filename keep_fields stats
          T B use_points ck (pre ++ bad :: rest)).flushes.flatten
        = preRows.take (B * (pre.length / B)) ∧
      (zonal_stats features raster output_folder filename keep_fields stats
          T B use_points ck (pre ++ bad :: rest)).flushes.flatten.length
        ≤ pre.length := by
  rcases projectRecord_error_of_missing hmiss with ⟨e, hbad, hmem, hnone⟩
  rcases processRecords_first_error
      (if !use_points then stats ++ keep_fields else "value" :: keep_fields)
      B T hB pre preRows bad rest e hpre hbad with ⟨hsnd, hflat, hlen⟩
  have herr2 : (zonal_stats features raster output_folder filename keep_fields
      stats T B use_points ck (pre ++ bad :: rest)).err = some e := hsnd
  refine ⟨e, herr2, hmem, hnone, ?_, hflat, hlen⟩
  rw [zonal_stats_retval, herr2]
  simp

/-- Claim C6 witness: with fields ["a", "b"], a second feature lacking "b"
aborts the 2-feature run with KeyError "b" after zero flushed rows. -/
theorem missing_field_aborts_witness :
    0 < 2 ∧
    projectAll (if !false then [] ++ ["a", "b"] else "value" :: ["a", "b"])
        [[("a", Value.vInt 1), ("b", Value.vInt 2)]]
      = Except.ok [[("a", Value.vInt 1), ("b", Value.vInt 2)]] ∧
    (∃ k ∈ (if !false then [] ++ ["a", "b"] else "value" :: ["a", "b"]),
      lookupKey [("a", Value.vInt 3)] k = none) ∧
    (∃ e, (zonal_stats "f.shp" "r.tif" "o" "x" ["a", "b"] [] 0 2 false []
          ([[("a", Value.vInt 1), ("b", Value.vInt 2)]]
            ++ [("a", Value.vInt 3)] :: [])).err = some e ∧
      e ∈ (if !false then [] ++ ["a", "b"] else "value" :: ["a", "b"]) ∧
      lookupKey [("a", Value.vInt 3)] e = none ∧
      (zonal_stats "f.shp" "r.tif" "o" "x" ["a", "b"] [] 0 2 false []
          ([[("a", Value.vInt 1), ("b", Value.vInt 2)]]
            ++ [("a", Value.vInt 3)] :: [])).retval = none ∧
      (zonal_stats "f.shp" "r.tif" "o" "x" ["a", "b"] [] 0 2 false []
          ([[("a", Value.vInt 1), ("b", Value.vInt 2)]]
            ++ [("a", Value.vInt 3)] :: [])).flushes.flatten
        = [[("a", Value.vInt 1), ("b", Value.vInt 2)]].take
            (2 * ([[("a", Value.vInt 1), ("b", Value.vInt 2)]].length / 2)) ∧
      (zonal_stats "f.shp" "r.tif" "o" "x" ["a", "b"] [] 0 2 false []
          ([[("a", Value.vInt 1), ("b", Value.vInt 2)]]
            ++ [("a", Value.vInt 3)] :: [])).flushes.flatten.length
        ≤ [[("a", Value.vInt 1), ("b", Value.vInt 2)]].length) :=
  ⟨by decide, by decide, by decide,
    missing_field_aborts "f.shp" "r.tif" "o" "x" ["a", "b"] [] 0 2 false []
      [[("a", Value.vInt 1), ("b", Value.vInt 2)]]
      [[("a", Value.vInt 1), ("b", Value.vInt 2)]]
      [("a", Value.vInt 3)] []
      (by decide) (by decide) (by decide)⟩

/-- Claim C9: throughout a run with positive batch size, the buffer of
projected records never holds more than write_batch_size entries: after any
number of loop iterations the buffer holds the running count modulo the
batch size, which is strictly below it; appending one more record keeps the
buffer at or below the batch size; and a buffer that reaches the batch size
is flushed by that same iteration, leaving it empty. -/
theorem buffer_bounded (fn : List String) (B T : ℕ)
    (records : List RawRecord) (rows : List ProjRecord) (k : ℕ)
    (hB : 0 < B) (_hrows : projectAll fn records = Except.ok rows) :
    (applyAll B T (rows.take k) initState).results.length < B ∧
    ∀ r : ProjRecord,
      ((applyAll B T (rows.take k) initState).results ++ [r]).length ≤ B ∧
      (((applyAll B T (rows.take k) initState).results ++ [r]).length = B →
        (stepState B T (applyAll B T (rows.take k) initState) r).results
          = []) := by
  have hres : (applyAll B T (rows.take k) initState).results.length
      = (rows.take k).length % B := by
    have h2 := applyAll_results_len B T hB (rows.take k) initState
      (by simp [initState])
    simpa [initState] using h2
  have hi : (applyAll B T (rows.take k) initState).i = (rows.take k).length := by
    rw [applyAll_i]
    simp [initState]
  have hlt : (rows.take k).length % B < B := Nat.mod_lt _ hB
  refine ⟨by rw [hres]; exact hlt, ?_⟩
  intro r
  constructor
  · simp only [List.length_append, List.length_cons, List.length_nil]
    rw [hres]
    omega
  · intro hEq
    apply stepState_results_of_eq
    rw [hi]
    apply succ_mod_eq_zero_of_boundary
    simp only [List.length_append, List.length_cons, List.length_nil] at hEq
    rw [hres] at hEq
    omega

/-- Claim C9 witness: with batch size 2, after one processed record of a
3-record stream the buffer holds 1 < 2 records, and one more record fills
it to 2, which the same iteration flushes back to empty. -/
theorem buffer_bounded_witness :
    0 < 2 ∧
    projectAll ["a"] [[("a", Value.vInt 1)], [("a", Value.vInt 2)],
        [("a", Value.vInt 3)]]
      = Except.ok [[("a", Value.vInt 1)], [("a", Value.vInt 2)],
        [("a", Value.vInt 3)]] ∧
    ((applyAll 2 0 ([[("a", Value.vInt 1)], [("a", Value.vInt 2)],
        [("a", Value.vInt 3)]].take 1) initState).results.length < 2 ∧
    ∀ r : ProjRecord,
      ((applyAll 2 0 ([[("a", Value.vInt 1)], [("a", Value.vInt 2)],
          [("a", Value.vInt 3)]].take 1) initState).results ++ [r]).length ≤ 2 ∧
      (((applyAll 2 0 ([[("a", Value.vInt 1)], [("a", Value.vInt 2)],
          [("a", Value.vInt 3)]].take 1) initState).results ++ [r]).length = 2 →
        (stepState 2 0 (applyAll 2 0 ([[("a", Value.vInt 1)],
            [("a", Value.vInt 2)], [("a", Value.vInt 3)]].take 1) initState)
          r).results = [])) :=
  ⟨by decide, by decide,
    buffer_bounded ["a"] 2 0
      [[("a", Value.vInt 1)], [("a", Value.vInt 2)], [("a", Value.vInt 3)]]
      [[("a", Value.vInt 1)], [("a", Value.vInt 2)], [("a", Value.vInt 3)]]
      1 (by decide) (by decide)⟩

end Eedl
